import Mathlib

/-!
Verification of the slide re-assembly subsystem of the slidex repository
(`slidex/core/assembler.py` and `slidex/core/pdf_assembler.py`) over a
shallow embedding.  Pure data (XML shape trees, relationship tables,
package parts) is modelled by inductive types; the metadata store, the
filesystem and the external package/PDF readers are modelled as an explicit
environment record of total functions.  External collaborators that the
repository calls but whose code is not part of the repository (the
presentation package library, the PDF library, the SQL store) are modelled
from the spec where their behaviour matters; each such point is marked
`Modelled from the spec:` in its doc comment.
-/

namespace Slidex

/-- Lower-case a string character by character (Python `str.lower`, restricted
to the relationship-type strings the assembler matches on). -/
def strLower (s : String) : String :=
  String.mk (s.data.map Char.toLower)

/-- Whether `needle` occurs as a contiguous run somewhere in the character
list (Python `needle in hay` for strings), by scanning every suffix. -/
def hasSubChars (needle : List Char) : List Char → Bool
  | [] => needle.isEmpty
  | c :: cs => List.isPrefixOf needle (c :: cs) || hasSubChars needle cs

/-- Python `needle in hay` for strings. -/
def containsSub (hay needle : String) : Bool :=
  hasSubChars needle.data hay.data

/-- An XML element as the assembler sees it: an attribute map (the XML
library keeps one value per attribute name) and the child elements.
Attribute names are the fully qualified names the code reads through `qn`,
written here as "r:embed" and "r:id". -/
inductive XmlElem where
  | node (attrs : List (String × String)) (children : List XmlElem)

mutual

/-- Decidable equality of elements (the automatic derivation does not handle
the nested recursion through `List`). -/
def decEqXmlElem : (a b : XmlElem) → Decidable (a = b)
  | .node a1 c1, .node a2 c2 =>
    match decEq a1 a2 with
    | .isFalse h => .isFalse (by intro he; cases he; exact h rfl)
    | .isTrue h1 =>
      match decEqXmlElems c1 c2 with
      | .isFalse h => .isFalse (by intro he; cases he; exact h rfl)
      | .isTrue h2 => .isTrue (by rw [h1, h2])

/-- Decidable equality of element lists. -/
def decEqXmlElems : (a b : List XmlElem) → Decidable (a = b)
  | [], [] => .isTrue rfl
  | [], _ :: _ => .isFalse (by intro h; cases h)
  | _ :: _, [] => .isFalse (by intro h; cases h)
  | a :: as, b :: bs =>
    match decEqXmlElem a b with
    | .isFalse h => .isFalse (by intro he; cases he; exact h rfl)
    | .isTrue h1 =>
      match decEqXmlElems as bs with
      | .isFalse h => .isFalse (by intro he; cases he; exact h rfl)
      | .isTrue h2 => .isTrue (by rw [h1, h2])

end

instance : DecidableEq XmlElem := decEqXmlElem

/-- Attribute map of an element. -/
def XmlElem.attrs : XmlElem → List (String × String)
  | .node a _ => a

/-- Children of an element. -/
def XmlElem.children : XmlElem → List XmlElem
  | .node _ c => c

/-- `element.get(name)`: the attribute's value, or `none` when absent. -/
def XmlElem.getAttr (e : XmlElem) (name : String) : Option String :=
  e.attrs.lookup name

/-- `element.set(name, value)` on an attribute list: replace the existing
entry in place, else append a new entry. -/
def setAttrPairs (name val : String) : List (String × String) → List (String × String)
  | [] => [(name, val)]
  | (n, v) :: rest =>
    if n == name then (n, val) :: rest else (n, v) :: setAttrPairs name val rest

/-- One attribute rewrite of the remapping loop (`assembler.py` lines
313-326) for the reference attribute `refAttr`: the attribute is rewritten
only when it is present, truthy (non-empty, `if embed_val`), its value is a
key of the old-to-new mapping, and the mapped value is itself a truthy
string (`if new_rid:`). -/
def remapAttr (m : List (String × Option String)) (refAttr : String)
    (attrs : List (String × String)) : List (String × String) :=
  match attrs.lookup refAttr with
  | none => attrs
  | some v =>
    if v = "" then attrs
    else
      match m.lookup v with
      | none => attrs
      | some none => attrs
      | some (some nr) => if nr = "" then attrs else setAttrPairs refAttr nr attrs

mutual

/-- The remapping walk (`assembler.py` lines 312-326): every element of the
inserted subtree is visited (`newel.iter()`), and on each element the
"r:embed" attribute and then the "r:id" attribute are rewritten through
`remapAttr`. -/
def remapElem (m : List (String × Option String)) : XmlElem → XmlElem
  | .node attrs children =>
    .node (remapAttr m "r:id" (remapAttr m "r:embed" attrs)) (remapElems m children)

/-- `remapElem` mapped over a list of elements. -/
def remapElems (m : List (String × Option String)) : List XmlElem → List XmlElem
  | [] => []
  | e :: es => remapElem m e :: remapElems m es

end

/-- A part of a source package as the copy loop reads it: `blob`,
`content_type` and `partname` are read with `getattr(..., default)`, so each
is optional; `image_ok` is an oracle for whether the external image codec
(`Image.from_blob` followed by `ImagePart.new`) accepts the blob — the codec
is outside the repository, so its success is a parameter of the model. -/
structure SourcePart where
  blob : Option (List Nat)
  content_type : Option String
  partname : Option String
  image_ok : Bool
deriving DecidableEq

/-- One relationship of the source slide's part, as produced by
`source_slide.part.rels.items()`: the owner-local identifier, the
relationship type string, and the target part. -/
structure Rel where
  rId : String
  reltype : String
  target : SourcePart
deriving DecidableEq

/-- One source slide: its shape elements (`source_slide.shapes`, each
contributing `shape.element`) and its part-level relationship table. -/
structure SourceSlide where
  shapes : List XmlElem
  rels : List Rel
deriving DecidableEq

/-- A binary part added to the output package's part store. -/
structure PkgPart where
  partname : String
  content_type : String
  blob : List Nat
deriving DecidableEq

/-- Target of a relationship created on the new slide: the new slide's own
blank layout (created by `add_slide`), a part freshly copied into the output
package, or — the last-resort branch of lines 296-298 — the original part of
the source package (a cross-package reference). -/
inductive RelTarget where
  | ownLayout
  | copied (p : PkgPart)
  | crossPackage (p : SourcePart)
deriving DecidableEq

/-- A relationship in the output slide's relationship table. -/
structure NewRel where
  rId : String
  reltype : String
  target : RelTarget
deriving DecidableEq

/-- Mutable state shared across the whole assembly run: the parts added to
the output package and the unique-naming counter (`image_counter['count']`,
starting at 0 in `assemble`). -/
structure AsmState where
  pkgParts : List PkgPart
  counter : Nat
deriving DecidableEq

/-- State threaded through the relationship-copy loop of `_copy_slide`:
the package state, the new slide's relationship table, and the old-to-new
identifier mapping `old_to_new`. -/
structure CopyCtx where
  st : AsmState
  newRels : List NewRel
  oldToNew : List (String × Option String)
deriving DecidableEq

/-- The skip list of `_copy_slide` (line 195): relationship kinds describing
internal presentation structure, matched as substrings of the lower-cased
relationship type. -/
def skipReltypes : List String :=
  ["slidelayout", "slidemaster", "theme", "notesmaster", "notesslide", "handoutmaster"]

/-- `any(skip in reltype_lower for skip in skip_reltypes)` (line 196). -/
def isSkippedReltype (reltype : String) : Bool :=
  skipReltypes.any (fun s => containsSub (strLower reltype) s)

/-- The four template-linkage kinds named by the spec (layout, master, theme,
notes-master), matched the same way the code matches its skip list. -/
def isTemplateLinkage (reltype : String) : Bool :=
  ["slidelayout", "slidemaster", "theme", "notesmaster"].any
    (fun s => containsSub (strLower reltype) s)

/-- The relationship type of the slide-to-layout relationship that
`add_slide` creates from the new slide to the chosen blank layout of the
output presentation's own template. -/
def slideLayoutReltype : String :=
  "http://schemas.openxmlformats.org/officeDocument/2006/relationships/slideLayout"

/-- Relationship table of a freshly added slide: `add_slide(blank_layout)`
relates the new slide to the output presentation's own blank layout under
the first identifier. -/
def initialSlideRels : List NewRel :=
  [⟨"rId1", slideLayoutReltype, RelTarget.ownLayout⟩]

/-- Modelled from the spec: the package part store's `relate` mints a fresh
owner-local relationship identifier (spec section 4.1); with the table only
ever appended to, the next free number is one past the current length. -/
def mintRId (rels : List NewRel) : String :=
  "rId" ++ toString (rels.length + 1)

/-- Modelled from the spec: `Part.relate_to(target, reltype)` of the external
package library "creates a new relationship scoped to the owner" and
"returns the newly minted identifier" (spec section 4.1) — the return value
is the identifier string itself, not a relationship object. -/
def relate_to (rels : List NewRel) (reltype : String) (tgt : RelTarget) :
    List NewRel × String :=
  let rid := mintRId rels
  (rels ++ [⟨rid, reltype, tgt⟩], rid)

/-- `getattr(new_rel, 'rId', None)` (line 300): `new_rel` is the string that
`relate_to` returned, and a Python string has no `rId` attribute, so the
three-argument `getattr` always yields its default `None`. -/
def getattrRIdOfString (_ : String) : Option String :=
  none

/-- `str(related_part.partname).split('.')[-1]` with the `if original_ext`
truthiness check and the `'bin'` default (lines 229-233 and analogues):
the last `.`-separated component when the part name is present and that
component is non-empty, else `"bin"`. -/
def extOf (partname : Option String) : String :=
  match partname with
  | none => "bin"
  | some s =>
    match (s.splitOn ".").getLast? with
    | none => "bin"
    | some e => if e = "" then "bin" else e

/-- The image branch (lines 200-216): requires a present blob and a truthy
content type; the counter is incremented before the codec runs, so a codec
failure still consumes a number; on success the re-encoded image is inserted
as a new part.  Modelled from the spec: the new part's name is a
counter-suffixed name under the media prefix (spec section 4.1), and the
re-encoded image blob is identified with the source blob, since no claim
depends on the codec's byte-level output. -/
def processImage (st : AsmState) (tp : SourcePart) : AsmState × Option PkgPart :=
  match tp.blob, tp.content_type with
  | some b, some ct =>
    if ct = "" then (st, none)
    else
      let c := st.counter + 1
      if tp.image_ok then
        let p : PkgPart := ⟨"/ppt/media/image" ++ toString c, ct, b⟩
        (⟨st.pkgParts ++ [p], c⟩, some p)
      else (⟨st.pkgParts, c⟩, none)
  | _, _ => (st, none)

/-- The byte-for-byte copy branches (OLE lines 218-243, media lines 245-267,
generic lines 269-290): when the source part exposes a blob, the counter is
incremented, a uniquely named part `dir ++ base ++ counter ++ "." ++ ext` is
created with the part's content type (or the branch's default when the
attribute is absent) and stored in the output package's part store; with no
blob, nothing is created. -/
def processBlobCopy (st : AsmState) (tp : SourcePart) (defaultCT base : String) :
    AsmState × Option PkgPart :=
  match tp.blob with
  | none => (st, none)
  | some b =>
    let ct := tp.content_type.getD defaultCT
    let c := st.counter + 1
    let pn := base ++ toString c ++ "." ++ extOf tp.partname
    let p : PkgPart := ⟨pn, ct, b⟩
    (⟨st.pkgParts ++ [p], c⟩, some p)

/-- The copy-strategy dispatch of `_copy_slide` (lines 200-290) on the
lower-cased relationship type `rl`: image codec re-encode, OLE/embedded
byte copy, media byte copy, or the generic best-effort byte copy. -/
def copyPart (st : AsmState) (rl : String) (tp : SourcePart) : AsmState × Option PkgPart :=
  if containsSub rl "image" then
    processImage st tp
  else if containsSub rl "oleobject" || containsSub rl "package" ||
      containsSub rl "embeddings" then
    processBlobCopy st tp
      "application/vnd.openxmlformats-officedocument.oleObject" "/ppt/embeddings/oleObject"
  else if containsSub rl "media" || containsSub rl "video" ||
      containsSub rl "audio" then
    processBlobCopy st tp "application/octet-stream" "/ppt/media/media"
  else
    processBlobCopy st tp "application/octet-stream" "/ppt/other/object"

/-- One iteration of the relationship-copy loop of `_copy_slide` (lines
185-305): skip internal template relationships outright; otherwise run the
copy-strategy dispatch; then relate the new slide to the new part (or, as a
last resort, to the original source part), and record
`old_to_new[rId] = getattr(new_rel, 'rId', None)`. -/
def processRel (ctx : CopyCtx) (r : Rel) : CopyCtx :=
  if isSkippedReltype r.reltype then ctx
  else
    let res := copyPart ctx.st (strLower r.reltype) r.target
    let relRes :=
      match res.2 with
      | some p => relate_to ctx.newRels r.reltype (RelTarget.copied p)
      | none => relate_to ctx.newRels r.reltype (RelTarget.crossPackage r.target)
    ⟨res.1, relRes.1, ctx.oldToNew ++ [(r.rId, getattrRIdOfString relRes.2)]⟩

/-- The whole relationship-copy loop, starting from the fresh slide's own
relationship table and an empty old-to-new mapping. -/
def relLoop (st : AsmState) (src : SourceSlide) : CopyCtx :=
  src.rels.foldl processRel ⟨st, initialSlideRels, []⟩

/-- An output slide: the shape elements inserted into its shape tree and its
relationship table. -/
structure TargetSlide where
  spTree : List XmlElem
  rels : List NewRel
deriving DecidableEq

/-- `_copy_slide` (lines 147-328): deep-copy all source shape elements into
the new slide's shape tree, run the relationship-copy loop, and, when the
old-to-new mapping is non-empty (`if old_to_new:`), run the remapping walk
over the inserted elements. -/
def copySlide (st : AsmState) (src : SourceSlide) : AsmState × TargetSlide :=
  let ctx := relLoop st src
  let finalElems :=
    if ctx.oldToNew.isEmpty then src.shapes else remapElems ctx.oldToNew src.shapes
  (ctx.st, ⟨finalElems, ctx.newRels⟩)

/-- A source presentation as the assembler reads it: its canvas dimensions
(in the package's native length unit) and its slide list. -/
structure Pres where
  slide_width : Nat
  slide_height : Nat
  slides : List SourceSlide
deriving DecidableEq

/-- One metadata-store row for a slide, as returned by
`db.get_slide_by_id`: the columns the two assemblers read.  `slide_file_path`
and `slide_pdf_path` are nullable columns, `deck_path` and `slide_index` are
always present on a returned row. -/
structure SlideRow where
  slide_id : String
  slide_file_path : Option String
  deck_path : String
  slide_index : Nat
  slide_pdf_path : Option String
deriving DecidableEq

/-- The external world of one assembly run: the metadata store
(`db.get_slide_by_id`, `None` for an unknown identifier), `Path.exists`,
`Presentation(path)` (`none` models the constructor raising), and
`fitz.open(path)` exposing its page count (`none` models `fitz.open`
raising). -/
structure Env where
  db : String → Option SlideRow
  pathExists : String → Bool
  openPres : String → Option Pres
  openPdf : String → Option Nat

/-- The condition `if slide_file_path and Path(slide_file_path).exists():`
— the column is non-null, truthy (non-empty) and the file exists. -/
def useStandalone (env : Env) (sd : SlideRow) : Bool :=
  match sd.slide_file_path with
  | some p => p != "" && env.pathExists p
  | none => false

/-- The path the assembler opens for a slide: the standalone single-slide
file when usable, else the original deck. -/
def sourcePath (env : Env) (sd : SlideRow) : String :=
  if useStandalone env sd then sd.slide_file_path.getD "" else sd.deck_path

/-- One iteration of the dimension pass (lines 56-68): open the preferred
source and read `(slide_width, slide_height)`; any failure is swallowed by
the bare `except` and contributes nothing. -/
def readDim (env : Env) (sd : SlideRow) : Option (Nat × Nat) :=
  (env.openPres (sourcePath env sd)).map (fun pr => (pr.slide_width, pr.slide_height))

/-- The readable dimension pairs of a batch, in batch order. -/
def readDims (env : Env) (rows : List SlideRow) : List (Nat × Nat) :=
  rows.filterMap (readDim env)

/-- `dimensions_count[dim] = dimensions_count.get(dim, 0) + 1` on a Python
dict kept as an insertion-ordered association list: bump an existing key in
place, else append the key with count 1. -/
def bumpDim (t : List ((Nat × Nat) × Nat)) (d : Nat × Nat) : List ((Nat × Nat) × Nat) :=
  match t with
  | [] => [(d, 1)]
  | (k, c) :: rest => if k = d then (k, c + 1) :: rest else (k, c) :: bumpDim rest d

/-- The tally of a list of dimension pairs. -/
def tallyOf (dims : List (Nat × Nat)) : List ((Nat × Nat) × Nat) :=
  dims.foldl bumpDim []

/-- `max(items, key=lambda x: x[1])` over the insertion-ordered items:
Python's `max` keeps the first of several maximal items, replacing the
running best only on a strictly greater key. -/
def pyMaxBySnd (x : (Nat × Nat) × Nat) (xs : List ((Nat × Nat) × Nat)) :
    (Nat × Nat) × Nat :=
  xs.foldl (fun best y => if best.2 < y.2 then y else best) x

/-- The fixed 16:9 widescreen default canvas (line 75). -/
def widescreenDefault : Nat × Nat := (9144000, 5143500)

/-- The dimension-tally loop of `assemble` (lines 55-68): fold over the
resolved rows, bumping the insertion-ordered dict for each readable
dimension pair and skipping unreadable ones. -/
def dimTally (env : Env) (rows : List SlideRow) : List ((Nat × Nat) × Nat) :=
  rows.foldl
    (fun t sd =>
      match readDim env sd with
      | some d => bumpDim t d
      | none => t)
    []

/-- The dimension selection of `assemble` (lines 54-75): take the most
common tallied pair (first seen wins ties), and fall back to the widescreen
default when the tally is empty. -/
def targetDimensions (env : Env) (rows : List SlideRow) : Nat × Nat :=
  match dimTally env rows with
  | [] => widescreenDefault
  | x :: xs => (pyMaxBySnd x xs).1

/-- Number of occurrences of a dimension pair in a list. -/
def countDim (d : Nat × Nat) : List (Nat × Nat) → Nat
  | [] => 0
  | x :: xs => (if x = d then 1 else 0) + countDim d xs

/-- Position of the first occurrence of a dimension pair in a list (the
length when absent). -/
def firstIdx (d : Nat × Nat) : List (Nat × Nat) → Nat
  | [] => 0
  | x :: xs => if x = d then 0 else firstIdx d xs + 1

/-- Invariant of the dimension tally for a processed list `l`: every entry
counts its key's occurrences in `l` and its key occurs in `l`; every element
of `l` has an entry; and the keys stand in first-occurrence order. -/
def TallyInv (l : List (Nat × Nat)) (t : List ((Nat × Nat) × Nat)) : Prop :=
  (∀ kc ∈ t, kc.2 = countDim kc.1 l ∧ kc.1 ∈ l) ∧
  (∀ k ∈ l, ∃ kc ∈ t, kc.1 = k) ∧
  (t.map Prod.fst).Pairwise (fun a b => firstIdx a l < firstIdx b l)

/-- The sort key comparison of `sorted(..., key=lambda x: (x['deck_path'],
x['slide_index']))`: lexicographic comparison of the pair, with Python's
code-point string order. -/
def rowLeProp (a b : SlideRow) : Prop :=
  a.deck_path < b.deck_path ∨ (a.deck_path = b.deck_path ∧ a.slide_index ≤ b.slide_index)

instance : DecidableRel rowLeProp := by
  intro a b
  unfold rowLeProp
  infer_instance

instance : IsTotal SlideRow rowLeProp := by
  constructor
  intro a b
  rcases lt_trichotomy a.deck_path b.deck_path with h | h | h
  · exact Or.inl (Or.inl h)
  · rcases Nat.le_total a.slide_index b.slide_index with h' | h'
    · exact Or.inl (Or.inr ⟨h, h'⟩)
    · exact Or.inr (Or.inr ⟨h.symm, h'⟩)
  · exact Or.inr (Or.inl h)

instance : IsTrans SlideRow rowLeProp := by
  constructor
  intro a b c hab hbc
  rcases hab with h1 | ⟨h1, h1'⟩
  · rcases hbc with h2 | ⟨h2, _⟩
    · exact Or.inl (h1.trans h2)
    · exact Or.inl (h2 ▸ h1)
  · rcases hbc with h2 | ⟨h2, h2'⟩
    · exact Or.inl (h1 ▸ h2)
    · exact Or.inr ⟨h1.trans h2, h1'.trans h2'⟩

/-- The ordering rule shared by both composers (`assembler.py` lines 89-97,
`pdf_assembler.py` lines 50-57): keep the given order under
`preserve_order`, else sort stably by `(deck_path, slide_index)` — Python's
`sorted` is a stable sort, modelled by Mathlib's stable insertion sort. -/
def orderSlides (preserve_order : Bool) (rows : List SlideRow) : List SlideRow :=
  if preserve_order then rows else List.insertionSort rowLeProp rows

/-- Resolution of a slide reference in the copy loop (lines 100-115): open
the standalone file and take its first slide, or fall back to the original
deck at the recorded index; `none` models the `except` path that skips the
slide (unopenable source or out-of-range index). -/
def loadSource (env : Env) (sd : SlideRow) : Option SourceSlide :=
  if useStandalone env sd then
    match env.openPres (sd.slide_file_path.getD "") with
    | none => none
    | some pr => pr.slides.head?
  else
    match env.openPres sd.deck_path with
    | none => none
    | some pr => pr.slides.get? sd.slide_index

/-- The source slides of the rows whose resolution succeeds, in row order. -/
def loadedSources (env : Env) (rows : List SlideRow) : List SourceSlide :=
  rows.filterMap (loadSource env)

/-- Copy a list of already-loaded source slides in order, threading the
package state. -/
def copySlides (st : AsmState) : List SourceSlide → AsmState × List TargetSlide
  | [] => (st, [])
  | s :: ss =>
    let r := copySlide st s
    let rest := copySlides r.1 ss
    (rest.1, r.2 :: rest.2)

/-- The per-slide loop of `assemble` (lines 99-129): resolve each row's
source, skip it on failure (`except ... continue`), and copy the rest in
order through the shared package state. -/
def copyLoop (env : Env) (st : AsmState) : List SlideRow → AsmState × List TargetSlide
  | [] => (st, [])
  | sd :: rest =>
    match loadSource env sd with
    | none => copyLoop env st rest
    | some src =>
      let r := copySlide st src
      let rest' := copyLoop env r.1 rest
      (rest'.1, r.2 :: rest'.2)

/-- The list-level errors of both assemblers: `ValueError("No slides
provided ...")` on an empty input list and `ValueError("No valid slides
found")` when no reference resolves. -/
inductive AsmError where
  | NoSlidesProvided
  | NoValidSlides
deriving DecidableEq

/-- The output package: canvas dimensions, the assembled slides in emission
order, and the binary parts added to the package's part store. -/
structure Output where
  slide_width : Nat
  slide_height : Nat
  slides : List TargetSlide
  pkgParts : List PkgPart
deriving DecidableEq

/-- `SlideAssembler.assemble` (lines 24-145): validate the input list,
resolve the references against the metadata store dropping unknown ones,
fail when none resolves, pick the target canvas, order the rows, run the
per-slide copy loop, and save the output package.  Saving, filename
generation and logging are outside the model; the returned `Output` is the
package that `new_prs.save` serializes. -/
def assemble (env : Env) (slide_ids : List String) (preserve_order : Bool) :
    Except AsmError Output :=
  if slide_ids.isEmpty then .error .NoSlidesProvided
  else
    let slides_data := slide_ids.filterMap env.db
    if slides_data.isEmpty then .error .NoValidSlides
    else
      let dims := targetDimensions env slides_data
      let ordered := orderSlides preserve_order slides_data
      let r := copyLoop env ⟨[], 0⟩ ordered
      .ok ⟨dims.1, dims.2, r.2, r.1.pkgParts⟩

/-- A log entry of the PDF assembler's per-slide loop: the warning for a
missing artifact path (lines 66-70) or the error for a failed page insert
(lines 81-85). -/
inductive PdfNote where
  | warnMissing (slide_id : String)
  | errAdding (slide_id : String)
deriving DecidableEq

/-- The per-slide loop of `PDFAssembler.assemble` (lines 63-85): a slide
contributes page 0 of its artifact exactly when the artifact path is
recorded and truthy, the file exists, `fitz.open` succeeds and the document
has at least one page; a missing path draws a warning, a failed open draws
an error, and an empty document is passed over silently. -/
def pdfLoop (env : Env) : List SlideRow → List String × List PdfNote
  | [] => ([], [])
  | sd :: rest =>
    let r := pdfLoop env rest
    match sd.slide_pdf_path with
    | none => (r.1, .warnMissing sd.slide_id :: r.2)
    | some p =>
      if p == "" || !env.pathExists p then (r.1, .warnMissing sd.slide_id :: r.2)
      else
        match env.openPdf p with
        | none => (r.1, .errAdding sd.slide_id :: r.2)
        | some 0 => r
        | some (_ + 1) => (p :: r.1, r.2)

/-- The pages the output PDF ends with, with the note log. -/
structure PdfOutput where
  pages : List String
  notes : List PdfNote
deriving DecidableEq

/-- `PDFAssembler.assemble` (lines 18-101): the same input validation,
resolution and ordering as the PPTX composer, then the page-merge loop;
the output records the source artifact of each inserted page in order. -/
def pdfAssemble (env : Env) (slide_ids : List String) (preserve_order : Bool) :
    Except AsmError PdfOutput :=
  if slide_ids.isEmpty then .error .NoSlidesProvided
  else
    let slides_data := slide_ids.filterMap env.db
    if slides_data.isEmpty then .error .NoValidSlides
    else
      let ordered := orderSlides preserve_order slides_data
      let r := pdfLoop env ordered
      .ok ⟨r.1, r.2⟩

/-- The characterization of one PDF page contribution, used to state the
page-count claims: the artifact path when it is recorded, truthy, exists on
disk, opens, and has a positive page count. -/
def pdfPage (env : Env) (sd : SlideRow) : Option String :=
  match sd.slide_pdf_path with
  | none => none
  | some p =>
    if p == "" || !env.pathExists p then none
    else
      match env.openPdf p with
      | none => none
      | some 0 => none
      | some (_ + 1) => some p

/-- Whether the PDF loop's warning branch fires for a row: the artifact path
is absent, empty, or missing on disk. -/
def missingPdf (env : Env) (sd : SlideRow) : Bool :=
  match sd.slide_pdf_path with
  | none => true
  | some p => p == "" || !env.pathExists p

/-- A PNG image part of a source package, used in the concrete runs below. -/
def imgPart : SourcePart :=
  ⟨some [137, 80, 78, 71], some "image/png", some "/ppt/media/old.png", true⟩

/-- An image relationship whose owner-local identifier `rId5` does not reuse
the low numbers a fresh output slide mints. -/
def relImg5 : Rel :=
  ⟨"rId5", "http://schemas.openxmlformats.org/officeDocument/2006/relationships/image",
    imgPart⟩

/-- A shape whose image fill references `rId5` of its owning slide. -/
def shapeEmbed5 : XmlElem := .node [("r:embed", "rId5")] []

/-- A source slide with one shape and one image relationship. -/
def srcSlideA : SourceSlide := ⟨[shapeEmbed5], [relImg5]⟩

/-- Metadata row for the slide above, materialized as a standalone file. -/
def rowA : SlideRow := ⟨"s1", some "slides/s1.pptx", "decks/a.pptx", 0, none⟩

/-- Environment of the concrete PPTX run: one known slide whose standalone
file exists and opens to a one-slide presentation. -/
def envA : Env where
  db := fun i => if i = "s1" then some rowA else none
  pathExists := fun p => p = "slides/s1.pptx"
  openPres := fun p => if p = "slides/s1.pptx" then some ⟨1000, 800, [srcSlideA]⟩ else none
  openPdf := fun _ => none

/-- Metadata row whose rendered single-page PDF artifact path is recorded. -/
def rowP : SlideRow := ⟨"s1", none, "decks/a.pptx", 0, some "pdf/s1.pdf"⟩

/-- Environment of the PDF counterexample: the artifact path exists on disk
but the PDF library fails to open the file. -/
def envP : Env where
  db := fun i => if i = "s1" then some rowP else none
  pathExists := fun p => p = "pdf/s1.pdf"
  openPres := fun _ => none
  openPdf := fun _ => none

/-- A well-behaved row for the witnesses: the deck opens, the slide is
plain, the rendered PDF exists with one page. -/
def rowB : SlideRow := ⟨"s2", none, "decks/b.pptx", 0, some "pdf/s2.pdf"⟩

/-- Environment where everything about `rowB` works. -/
def envB : Env where
  db := fun i => if i = "s2" then some rowB else none
  pathExists := fun p => p = "pdf/s2.pdf"
  openPres := fun p => if p = "decks/b.pptx" then some ⟨1000, 800, [⟨[], []⟩]⟩ else none
  openPdf := fun p => if p = "pdf/s2.pdf" then some 1 else none

/-- Environment where the metadata resolves but no source package opens. -/
def envU : Env where
  db := fun i => if i = "s2" then some rowB else none
  pathExists := fun _ => false
  openPres := fun _ => none
  openPdf := fun _ => none

/-- A theme relationship of a source slide. -/
def relTheme : Rel :=
  ⟨"rId7", "http://schemas.openxmlformats.org/officeDocument/2006/relationships/theme",
    ⟨some [1], some "application/xml", some "/ppt/theme/theme1.xml", false⟩⟩

/-- A copy-loop context at the start of a slide copy. -/
def ctxEx : CopyCtx := ⟨⟨[], 0⟩, initialSlideRels, []⟩

deriving instance DecidableEq for Except

theorem template_skip {rt : String} (h : isTemplateLinkage rt = true) :
    isSkippedReltype rt = true := by
  simp only [isTemplateLinkage, List.any_cons, List.any_nil, Bool.or_eq_true,
    Bool.or_false] at h
  simp only [isSkippedReltype, skipReltypes, List.any_cons, List.any_nil,
    Bool.or_eq_true, Bool.or_false]
  tauto

theorem processRel_skip {ctx : CopyCtx} {r : Rel} (h : isSkippedReltype r.reltype = true) :
    processRel ctx r = ctx := by
  simp [processRel, h]

theorem processRel_not_skip {ctx : CopyCtx} {r : Rel}
    (h : isSkippedReltype r.reltype = false) :
    ∃ tgt,
      (processRel ctx r).newRels = ctx.newRels ++ [⟨mintRId ctx.newRels, r.reltype, tgt⟩] ∧
      (processRel ctx r).oldToNew = ctx.oldToNew ++ [(r.rId, none)] := by
  cases hres : (copyPart ctx.st (strLower r.reltype) r.target).2 with
  | none =>
    exact ⟨RelTarget.crossPackage r.target, by
      simp [processRel, h, hres, relate_to, getattrRIdOfString, mintRId]⟩
  | some p =>
    exact ⟨RelTarget.copied p, by
      simp [processRel, h, hres, relate_to, getattrRIdOfString, mintRId]⟩

theorem foldl_processRel_filter_template :
    ∀ (l : List Rel) (ctx : CopyCtx),
      (l.filter (fun r => !isTemplateLinkage r.reltype)).foldl processRel ctx =
        l.foldl processRel ctx := by
  intro l
  induction l with
  | nil => intro ctx; rfl
  | cons r rest ih =>
    intro ctx
    by_cases ht : isTemplateLinkage r.reltype = true
    · rw [List.filter_cons_of_neg (by simp [ht]), List.foldl_cons,
        processRel_skip (template_skip ht)]
      exact ih ctx
    · rw [List.filter_cons_of_pos (by simp [Bool.not_eq_true] at ht; simp [ht]),
        List.foldl_cons, List.foldl_cons]
      exact ih (processRel ctx r)

theorem foldl_processRel_template_rels :
    ∀ (l : List Rel) (ctx : CopyCtx),
      (∀ nr ∈ ctx.newRels, isTemplateLinkage nr.reltype = true →
        nr = ⟨"rId1", slideLayoutReltype, RelTarget.ownLayout⟩) →
      ∀ nr ∈ (l.foldl processRel ctx).newRels, isTemplateLinkage nr.reltype = true →
        nr = ⟨"rId1", slideLayoutReltype, RelTarget.ownLayout⟩ := by
  intro l
  induction l with
  | nil => intro ctx h; exact h
  | cons r rest ih =>
    intro ctx h
    rw [List.foldl_cons]
    apply ih
    by_cases hs : isSkippedReltype r.reltype = true
    · rw [processRel_skip hs]; exact h
    · rw [Bool.not_eq_true] at hs
      obtain ⟨tgt, hnew, -⟩ := @processRel_not_skip ctx r hs
      rw [hnew]
      intro nr hmem ht
      rcases List.mem_append.mp hmem with hmem | hmem
      · exact h nr hmem ht
      · rcases List.mem_singleton.mp hmem with rfl
        exact absurd (template_skip ht) (by simp [hs])

theorem foldl_processRel_oldToNew :
    ∀ (l : List Rel) (ctx : CopyCtx),
      (l.foldl processRel ctx).oldToNew =
        ctx.oldToNew ++ (l.filter (fun r => !isSkippedReltype r.reltype)).map
          (fun r => (r.rId, (none : Option String))) := by
  intro l
  induction l with
  | nil => intro ctx; simp
  | cons r rest ih =>
    intro ctx
    rw [List.foldl_cons]
    by_cases hs : isSkippedReltype r.reltype = true
    · rw [processRel_skip hs, ih, List.filter_cons_of_neg (by simp [hs])]
    · rw [Bool.not_eq_true] at hs
      obtain ⟨tgt, -, hold⟩ := @processRel_not_skip ctx r hs
      rw [ih, hold, List.filter_cons_of_pos (by simp [hs])]
      simp

/-- C2: relationships of template-linkage kind (slide layout, slide master,
theme, notes master) are never copied: processing one leaves the whole copy
state untouched; copying a slide gives the same result as copying the slide
with those relationships removed; the only template-linkage relationship in
an output slide's table is the slide's own layout relationship; and — when
the source rels table has distinct identifiers, as the OPC invariant
guarantees — no template relationship's identifier enters the old-to-new
mapping. -/
theorem C2_template_linkage_never_copied :
    (∀ (ctx : CopyCtx) (r : Rel), isTemplateLinkage r.reltype = true →
      processRel ctx r = ctx) ∧
    (∀ (st : AsmState) (src : SourceSlide),
      copySlide st src =
        copySlide st ⟨src.shapes, src.rels.filter (fun r => !isTemplateLinkage r.reltype)⟩) ∧
    (∀ (st : AsmState) (src : SourceSlide),
      ∀ nr ∈ (copySlide st src).2.rels, isTemplateLinkage nr.reltype = true →
        nr = ⟨"rId1", slideLayoutReltype, RelTarget.ownLayout⟩) ∧
    (∀ (st : AsmState) (src : SourceSlide) (r : Rel),
      (src.rels.map Rel.rId).Nodup → r ∈ src.rels → isTemplateLinkage r.reltype = true →
      ∀ v, (r.rId, v) ∉ (relLoop st src).oldToNew) := by
  refine ⟨?_, ?_, ?_, ?_⟩
  · intro ctx r ht
    exact processRel_skip (template_skip ht)
  · intro st src
    unfold copySlide relLoop
    rw [foldl_processRel_filter_template]
  · intro st src
    unfold copySlide relLoop
    intro nr hmem ht
    refine foldl_processRel_template_rels src.rels ⟨st, initialSlideRels, []⟩ ?_ nr hmem ht
    intro nr' hmem' _
    simpa [initialSlideRels] using hmem'
  · intro st src r hnodup hmem ht v hin
    unfold relLoop at hin
    rw [foldl_processRel_oldToNew] at hin
    simp only [List.nil_append, List.mem_map, List.mem_filter] at hin
    obtain ⟨r', ⟨hr'mem, hr'skip⟩, hr'eq⟩ := hin
    have hid : r'.rId = r.rId := congrArg Prod.fst hr'eq
    have : r' = r := List.inj_on_of_nodup_map hnodup hr'mem hmem hid
    subst this
    rw [template_skip ht] at hr'skip
    simp at hr'skip

/-- Witness for C2 at concrete inputs: a theme relationship is template
linkage, and processing it leaves the copy context unchanged. -/
theorem C2_witness :
    isTemplateLinkage relTheme.reltype = true ∧ processRel ctxEx relTheme = ctxEx :=
  ⟨by decide, C2_template_linkage_never_copied.1 ctxEx relTheme (by decide)⟩

/-- C1 fails on the code: assembling the one-slide list `["s1"]` of `envA`
— a slide whose only shape references its image relationship `rId5` —
produces an output slide whose shape still carries `r:embed = "rId5"`,
while the output slide's relationship table holds only `rId1` (its own
layout) and `rId2` (the copied image): the reference does not resolve in
the output slide's own relationship table.  The root cause is line 300:
`relate_to` returns the minted identifier string, so
`getattr(new_rel, 'rId', None)` is always `None` and the remapping loop's
`if new_rid:` guard never fires. -/
theorem C1_dangling_reference_after_assemble :
    assemble envA ["s1"] true =
      .ok ⟨1000, 800,
        [⟨[shapeEmbed5],
          [⟨"rId1", slideLayoutReltype, RelTarget.ownLayout⟩,
           ⟨"rId2", relImg5.reltype,
             RelTarget.copied ⟨"/ppt/media/image1", "image/png", [137, 80, 78, 71]⟩⟩]⟩],
        [⟨"/ppt/media/image1", "image/png", [137, 80, 78, 71]⟩]⟩ ∧
    shapeEmbed5.getAttr "r:embed" = some "rId5" ∧
    ["rId1", "rId2"].contains "rId5" = false := by
  refine ⟨by decide, by decide, by decide⟩

/-- C5 fails on the code: for the copied slide of `srcSlideA`, the
old-to-new mapping built by the relationship loop is `[("rId5", None)]` —
`getattr` on the identifier string that `relate_to` returned yields `None`
for every entry — so the remapping walk leaves the attribute `r:embed =
"rId5"` byte-for-byte unchanged even though `"rId5"` is a key of the
mapping, instead of rewriting it to a new identifier. -/
theorem C5_remap_never_rewrites :
    (relLoop ⟨[], 0⟩ srcSlideA).oldToNew = [("rId5", none)] ∧
    remapElems [("rId5", none)] [shapeEmbed5] = [shapeEmbed5] ∧
    (copySlide ⟨[], 0⟩ srcSlideA).2.spTree = [shapeEmbed5] := by
  refine ⟨by decide, by decide, by decide⟩

theorem countDim_append (d : Nat × Nat) (l₁ l₂ : List (Nat × Nat)) :
    countDim d (l₁ ++ l₂) = countDim d l₁ + countDim d l₂ := by
  induction l₁ with
  | nil => simp [countDim]
  | cons x xs ih => simp [countDim, ih, Nat.add_assoc]

theorem countDim_eq_zero_of_not_mem {d : Nat × Nat} {l : List (Nat × Nat)}
    (h : d ∉ l) : countDim d l = 0 := by
  induction l with
  | nil => rfl
  | cons x xs ih =>
    have hx : x ≠ d := fun he => h (he ▸ List.mem_cons_self x xs)
    have hxs : d ∉ xs := fun hm => h (List.mem_cons_of_mem _ hm)
    simp [countDim, hx, ih hxs]

theorem firstIdx_append_of_mem {d : Nat × Nat} {l₁ : List (Nat × Nat)}
    (h : d ∈ l₁) (l₂ : List (Nat × Nat)) :
    firstIdx d (l₁ ++ l₂) = firstIdx d l₁ := by
  induction l₁ with
  | nil => cases h
  | cons x xs ih =>
    by_cases hx : x = d
    · simp [firstIdx, hx]
    · have hxs : d ∈ xs := by
        rcases List.mem_cons.mp h with he | hm
        · exact absurd he.symm hx
        · exact hm
      simp [firstIdx, hx, ih hxs]

theorem firstIdx_append_self_of_not_mem {d : Nat × Nat} {l : List (Nat × Nat)}
    (h : d ∉ l) : firstIdx d (l ++ [d]) = l.length := by
  induction l with
  | nil => simp [firstIdx]
  | cons x xs ih =>
    have hx : x ≠ d := fun he => h (he ▸ List.mem_cons_self x xs)
    have hxs : d ∉ xs := fun hm => h (List.mem_cons_of_mem _ hm)
    simp [firstIdx, hx, ih hxs]

theorem firstIdx_lt_length_of_mem {d : Nat × Nat} {l : List (Nat × Nat)}
    (h : d ∈ l) : firstIdx d l < l.length := by
  induction l with
  | nil => cases h
  | cons x xs ih =>
    by_cases hx : x = d
    · simp [firstIdx, hx]
    · have hxs : d ∈ xs := by
        rcases List.mem_cons.mp h with he | hm
        · exact absurd he.symm hx
        · exact hm
      simpa [firstIdx, hx, Nat.succ_lt_succ_iff] using ih hxs

theorem bumpDim_ne_nil (t : List ((Nat × Nat) × Nat)) (d : Nat × Nat) :
    bumpDim t d ≠ [] := by
  cases t with
  | nil => simp [bumpDim]
  | cons kc rest =>
    obtain ⟨k, c⟩ := kc
    by_cases h : k = d <;> simp [bumpDim, h]

theorem bumpDim_of_not_mem {t : List ((Nat × Nat) × Nat)} {d : Nat × Nat}
    (h : ∀ kc ∈ t, kc.1 ≠ d) : bumpDim t d = t ++ [(d, 1)] := by
  induction t with
  | nil => rfl
  | cons kc rest ih =>
    obtain ⟨k, c⟩ := kc
    have hk : k ≠ d := h (k, c) (List.mem_cons_self _ _)
    simp only [bumpDim, if_neg hk, List.cons_append, List.cons.injEq, true_and]
    exact ih (fun kc hm => h kc (List.mem_cons_of_mem _ hm))

theorem bumpDim_of_mem {t₁ t₂ : List ((Nat × Nat) × Nat)} {d : Nat × Nat} {c : Nat}
    (h : ∀ kc ∈ t₁, kc.1 ≠ d) :
    bumpDim (t₁ ++ (d, c) :: t₂) d = t₁ ++ (d, c + 1) :: t₂ := by
  induction t₁ with
  | nil => simp [bumpDim]
  | cons kc rest ih =>
    obtain ⟨k, c'⟩ := kc
    have hk : k ≠ d := h (k, c') (List.mem_cons_self _ _)
    simp only [List.cons_append, bumpDim, if_neg hk, List.cons.injEq, true_and]
    exact ih (fun kc hm => h kc (List.mem_cons_of_mem _ hm))

theorem pairwise_firstIdx_extend {l : List (Nat × Nat)} {d : Nat × Nat}
    {ks : List (Nat × Nat)} (hks : ∀ k ∈ ks, k ∈ l)
    (h : ks.Pairwise (fun a b => firstIdx a l < firstIdx b l)) :
    ks.Pairwise (fun a b => firstIdx a (l ++ [d]) < firstIdx b (l ++ [d])) := by
  refine h.imp_of_mem ?_
  intro a b ha hb hr
  rw [firstIdx_append_of_mem (hks a ha), firstIdx_append_of_mem (hks b hb)]
  exact hr

theorem tallyInv_bump {l : List (Nat × Nat)} {t : List ((Nat × Nat) × Nat)}
    {d : Nat × Nat} (h : TallyInv l t) : TallyInv (l ++ [d]) (bumpDim t d) := by
  obtain ⟨h1, h2, h3⟩ := h
  by_cases hmem : ∃ kc ∈ t, kc.1 = d
  · obtain ⟨⟨k0, c0⟩, hm0, hk0⟩ := hmem
    have hk0' : k0 = d := hk0
    subst hk0'
    obtain ⟨t₁, t₂, rfl⟩ := List.append_of_mem hm0
    have hmap : ((t₁ ++ (k0, c0) :: t₂).map Prod.fst) =
        t₁.map Prod.fst ++ k0 :: t₂.map Prod.fst := by simp
    rw [hmap, List.pairwise_append] at h3
    obtain ⟨h3a, h3b, h3c⟩ := h3
    have ht₁ : ∀ kc ∈ t₁, kc.1 ≠ k0 := by
      intro kc hm he
      have := h3c kc.1 (List.mem_map_of_mem Prod.fst hm) k0 (List.mem_cons_self _ _)
      rw [he] at this
      exact lt_irrefl _ this
    have ht₂ : ∀ kc ∈ t₂, kc.1 ≠ k0 := by
      intro kc hm he
      have := (List.pairwise_cons.mp h3b).1 kc.1 (List.mem_map_of_mem Prod.fst hm)
      rw [he] at this
      exact lt_irrefl _ this
    rw [bumpDim_of_mem ht₁]
    have hdl : k0 ∈ l := (h1 (k0, c0) hm0).2
    have hcnt : ∀ (k : Nat × Nat), k ≠ k0 → countDim k (l ++ [k0]) = countDim k l := by
      intro k hk
      rw [countDim_append]
      have hz : countDim k [k0] = 0 := by
        simp only [countDim]
        rw [if_neg (fun he => hk he.symm)]
      rw [hz, Nat.add_zero]
    refine ⟨?_, ?_, ?_⟩
    · intro kc hm
      rcases List.mem_append.mp hm with hm' | hm'
      · obtain ⟨hc, hk⟩ := h1 kc (List.mem_append_left _ hm')
        exact ⟨by rw [hcnt kc.1 (ht₁ kc hm'), hc], List.mem_append_left _ hk⟩
      · rcases List.mem_cons.mp hm' with rfl | hm''
        · have hc : c0 = countDim k0 l := (h1 (k0, c0) hm0).1
          refine ⟨?_, List.mem_append_left _ hdl⟩
          show c0 + 1 = countDim k0 (l ++ [k0])
          have hone : countDim k0 [k0] = 1 := by simp [countDim]
          rw [countDim_append, hone, ← hc]
        · obtain ⟨hc, hk⟩ := h1 kc
            (List.mem_append_right _ (List.mem_cons_of_mem _ hm''))
          exact ⟨by rw [hcnt kc.1 (ht₂ kc hm''), hc], List.mem_append_left _ hk⟩
    · intro k hk
      rcases List.mem_append.mp hk with hk' | hk'
      · obtain ⟨kc, hm, he⟩ := h2 k hk'
        rcases List.mem_append.mp hm with hm' | hm'
        · exact ⟨kc, List.mem_append_left _ hm', he⟩
        · rcases List.mem_cons.mp hm' with rfl | hm''
          · exact ⟨(k0, c0 + 1), List.mem_append_right _ (List.mem_cons_self _ _), he⟩
          · exact ⟨kc, List.mem_append_right _ (List.mem_cons_of_mem _ hm''), he⟩
      · rcases List.mem_singleton.mp hk' with rfl
        exact ⟨(k, c0 + 1), List.mem_append_right _ (List.mem_cons_self _ _), rfl⟩
    · have hmap' : ((t₁ ++ (k0, c0 + 1) :: t₂).map Prod.fst) =
          t₁.map Prod.fst ++ k0 :: t₂.map Prod.fst := by simp
      rw [hmap', List.pairwise_append]
      have hks₁ : ∀ k ∈ t₁.map Prod.fst, k ∈ l := by
        intro k hk
        obtain ⟨kc, hm, rfl⟩ := List.mem_map.mp hk
        exact (h1 kc (List.mem_append_left _ hm)).2
      have hks₂ : ∀ k ∈ k0 :: t₂.map Prod.fst, k ∈ l := by
        intro k hk
        rcases List.mem_cons.mp hk with rfl | hk'
        · exact hdl
        · obtain ⟨kc, hm, rfl⟩ := List.mem_map.mp hk'
          exact (h1 kc (List.mem_append_right _ (List.mem_cons_of_mem _ hm))).2
      refine ⟨pairwise_firstIdx_extend hks₁ h3a, pairwise_firstIdx_extend hks₂ h3b, ?_⟩
      intro a ha b hb
      rw [firstIdx_append_of_mem (hks₁ a ha), firstIdx_append_of_mem (hks₂ b hb)]
      exact h3c a ha b hb
  · have hne : ∀ kc ∈ t, kc.1 ≠ d := fun kc hm he => hmem ⟨kc, hm, he⟩
    have hdl : d ∉ l := by
      intro hdl
      obtain ⟨kc, hm, he⟩ := h2 d hdl
      exact hne kc hm he
    rw [bumpDim_of_not_mem hne]
    have hcnt : ∀ (k : Nat × Nat), k ≠ d → countDim k (l ++ [d]) = countDim k l := by
      intro k hk
      rw [countDim_append]
      have hz : countDim k [d] = 0 := by
        simp only [countDim]
        rw [if_neg (fun he => hk he.symm)]
      rw [hz, Nat.add_zero]
    refine ⟨?_, ?_, ?_⟩
    · intro kc hm
      rcases List.mem_append.mp hm with hm' | hm'
      · obtain ⟨hc, hk⟩ := h1 kc hm'
        exact ⟨by rw [hcnt kc.1 (hne kc hm'), hc], List.mem_append_left _ hk⟩
      · rcases List.mem_singleton.mp hm' with rfl
        refine ⟨?_, List.mem_append_right _ (List.mem_singleton_self _)⟩
        show (1 : Nat) = countDim d (l ++ [d])
        rw [countDim_append, countDim_eq_zero_of_not_mem hdl]
        simp [countDim]
    · intro k hk
      rcases List.mem_append.mp hk with hk' | hk'
      · obtain ⟨kc, hm, he⟩ := h2 k hk'
        exact ⟨kc, List.mem_append_left _ hm, he⟩
      · rcases List.mem_singleton.mp hk' with rfl
        exact ⟨(k, 1), List.mem_append_right _ (List.mem_singleton_self _), rfl⟩
    · rw [List.map_append, List.pairwise_append]
      have hks : ∀ k ∈ t.map Prod.fst, k ∈ l := by
        intro k hk
        obtain ⟨kc, hm, rfl⟩ := List.mem_map.mp hk
        exact (h1 kc hm).2
      refine ⟨pairwise_firstIdx_extend hks h3, by simp, ?_⟩
      intro a ha b hb
      simp only [List.map_cons, List.map_nil, List.mem_singleton] at hb
      subst hb
      rw [firstIdx_append_of_mem (hks a ha), firstIdx_append_self_of_not_mem hdl]
      exact firstIdx_lt_length_of_mem (hks a ha)

theorem tallyOf_append_singleton (l : List (Nat × Nat)) (d : Nat × Nat) :
    tallyOf (l ++ [d]) = bumpDim (tallyOf l) d := by
  simp [tallyOf, List.foldl_append]

theorem tallyOf_inv (l : List (Nat × Nat)) : TallyInv l (tallyOf l) := by
  induction l using List.reverseRecOn with
  | nil => exact ⟨by simp [tallyOf], by simp, by simp [tallyOf]⟩
  | append_singleton l d ih =>
    rw [tallyOf_append_singleton]
    exact tallyInv_bump ih

theorem tallyOf_eq_nil_iff (l : List (Nat × Nat)) : tallyOf l = [] ↔ l = [] := by
  constructor
  · intro h
    cases l using List.reverseRecOn with
    | nil => rfl
    | append_singleton l d =>
      rw [tallyOf_append_singleton] at h
      exact absurd h (bumpDim_ne_nil _ _)
  · rintro rfl
    rfl

theorem pyMax_ge (x : (Nat × Nat) × Nat) (xs : List ((Nat × Nat) × Nat)) :
    x.2 ≤ (pyMaxBySnd x xs).2 ∧ ∀ y ∈ xs, y.2 ≤ (pyMaxBySnd x xs).2 := by
  induction xs generalizing x with
  | nil => exact ⟨Nat.le_refl _, by simp⟩
  | cons y ys ih =>
    have step : pyMaxBySnd x (y :: ys) = pyMaxBySnd (if x.2 < y.2 then y else x) ys := rfl
    by_cases h : x.2 < y.2
    · rw [step, if_pos h]
      obtain ⟨h1, h2⟩ := ih y
      refine ⟨Nat.le_of_lt (Nat.lt_of_lt_of_le h h1), ?_⟩
      intro z hz
      rcases List.mem_cons.mp hz with rfl | hz'
      · exact h1
      · exact h2 z hz'
    · rw [step, if_neg h]
      obtain ⟨h1, h2⟩ := ih x
      refine ⟨h1, ?_⟩
      intro z hz
      rcases List.mem_cons.mp hz with rfl | hz'
      · exact Nat.le_trans (Nat.le_of_not_lt h) h1
      · exact h2 z hz'

theorem pyMax_split (x : (Nat × Nat) × Nat) (xs : List ((Nat × Nat) × Nat)) :
    ∃ t₁ t₂, x :: xs = t₁ ++ (pyMaxBySnd x xs) :: t₂ ∧
      ∀ y ∈ t₁, y.2 < (pyMaxBySnd x xs).2 := by
  induction xs generalizing x with
  | nil => exact ⟨[], [], rfl, by simp⟩
  | cons y ys ih =>
    have step : pyMaxBySnd x (y :: ys) = pyMaxBySnd (if x.2 < y.2 then y else x) ys := rfl
    by_cases h : x.2 < y.2
    · rw [step, if_pos h]
      obtain ⟨t₁, t₂, heq, hlt⟩ := ih y
      refine ⟨x :: t₁, t₂, ?_, ?_⟩
      · rw [List.cons_append, ← heq]
      · intro z hz
        rcases List.mem_cons.mp hz with rfl | hz'
        · exact Nat.lt_of_lt_of_le h (pyMax_ge y ys).1
        · exact hlt z hz'
    · rw [step, if_neg h]
      obtain ⟨t₁, t₂, heq, hlt⟩ := ih x
      cases t₁ with
      | nil =>
        simp only [List.nil_append] at heq
        obtain ⟨hx, ht⟩ := List.cons.inj heq
        refine ⟨[], y :: ys, ?_, by simp⟩
        rw [List.nil_append, ← hx]
      | cons a t₁' =>
        simp only [List.cons_append] at heq
        obtain ⟨hx, ht⟩ := List.cons.inj heq
        cases hx
        refine ⟨x :: y :: t₁', t₂, ?_, ?_⟩
        · rw [List.cons_append, List.cons_append, ← ht]
        · intro z hz
          have hxlt : x.2 < (pyMaxBySnd x ys).2 :=
            hlt x (List.mem_cons_self _ _)
          rcases List.mem_cons.mp hz with rfl | hz'
          · exact hxlt
          · rcases List.mem_cons.mp hz' with rfl | hz''
            · exact Nat.lt_of_le_of_lt (Nat.le_of_not_lt h) hxlt
            · exact hlt z (List.mem_cons_of_mem _ hz'')

theorem dimTally_foldl (env : Env) :
    ∀ (rows : List SlideRow) (acc : List ((Nat × Nat) × Nat)),
      rows.foldl
        (fun t sd =>
          match readDim env sd with
          | some d => bumpDim t d
          | none => t) acc =
      (rows.filterMap (readDim env)).foldl bumpDim acc := by
  intro rows
  induction rows with
  | nil => intro acc; rfl
  | cons sd rest ih =>
    intro acc
    cases hd : readDim env sd with
    | none => simp [List.filterMap_cons, hd, ih]
    | some d => simp [List.filterMap_cons, hd, ih]

theorem dimTally_eq (env : Env) (rows : List SlideRow) :
    dimTally env rows = tallyOf (readDims env rows) := by
  unfold dimTally tallyOf readDims
  exact dimTally_foldl env rows []

/-- C3: the dimension normalizer tallies the readable `(width, height)`
pairs of the batch (each read preferring the standalone file, else the
deck, which is what `readDim` does), selects a pair of maximal count whose
first occurrence precedes that of every other maximal pair, defaults to the
widescreen 9144000 x 5143500 canvas when nothing is readable, and the
assembled output carries exactly the selected dimensions. -/
theorem C3_dimension_selection :
    (∀ env rows, readDims env rows = [] →
      targetDimensions env rows = (9144000, 5143500)) ∧
    (∀ env rows, readDims env rows ≠ [] →
      targetDimensions env rows ∈ readDims env rows ∧
      (∀ d ∈ readDims env rows,
        countDim d (readDims env rows) ≤
          countDim (targetDimensions env rows) (readDims env rows)) ∧
      (∀ d ∈ readDims env rows,
        countDim d (readDims env rows) =
          countDim (targetDimensions env rows) (readDims env rows) →
        firstIdx (targetDimensions env rows) (readDims env rows) ≤
          firstIdx d (readDims env rows))) ∧
    (∀ env ids po out, assemble env ids po = .ok out →
      (out.slide_width, out.slide_height) = targetDimensions env (ids.filterMap env.db)) := by
  refine ⟨?_, ?_, ?_⟩
  · intro env rows h
    unfold targetDimensions
    rw [dimTally_eq, h]
    rfl
  · intro env rows hne
    have hT := tallyOf_inv (readDims env rows)
    cases hTeq : tallyOf (readDims env rows) with
    | nil => exact absurd ((tallyOf_eq_nil_iff _).mp hTeq) hne
    | cons x xs =>
      rw [hTeq] at hT
      obtain ⟨h1, h2, h3⟩ := hT
      have htgt : targetDimensions env rows = (pyMaxBySnd x xs).1 := by
        unfold targetDimensions
        rw [dimTally_eq, hTeq]
      obtain ⟨t₁, t₂, hsplit, hlt⟩ := pyMax_split x xs
      have hbestmem : pyMaxBySnd x xs ∈ x :: xs := by
        rw [hsplit]
        exact List.mem_append_right _ (List.mem_cons_self _ _)
      obtain ⟨hbc, hbm⟩ := h1 _ hbestmem
      refine ⟨?_, ?_, ?_⟩
      · rw [htgt]
        exact hbm
      · intro d hd
        rw [htgt]
        obtain ⟨kc, hkcm, hkc1⟩ := h2 d hd
        have hkc2 : kc.2 = countDim d (readDims env rows) := by
          rw [(h1 kc hkcm).1, hkc1]
        have hle : kc.2 ≤ (pyMaxBySnd x xs).2 := by
          rcases List.mem_cons.mp hkcm with he | hm
          · rw [he]
            exact (pyMax_ge x xs).1
          · exact (pyMax_ge x xs).2 kc hm
        rw [hkc2, hbc] at hle
        exact hle
      · intro d hd hceq
        rw [htgt] at hceq ⊢
        obtain ⟨kc, hkcm, hkc1⟩ := h2 d hd
        have hkc2 : kc.2 = countDim d (readDims env rows) := by
          rw [(h1 kc hkcm).1, hkc1]
        rw [hsplit] at hkcm
        rcases List.mem_append.mp hkcm with hmt₁ | hmid
        · exfalso
          have := hlt kc hmt₁
          rw [hkc2, hceq, ← hbc] at this
          exact lt_irrefl _ this
        · rcases List.mem_cons.mp hmid with rfl | hmt₂
          · rw [hkc1]
          · rw [hsplit, List.map_append, List.pairwise_append] at h3
            have hP2 := h3.2.1
            have := (List.pairwise_cons.mp hP2).1 kc.1
              (List.mem_map_of_mem Prod.fst hmt₂)
            rw [hkc1] at this
            exact Nat.le_of_lt this
  · intro env ids po out h
    simp only [assemble] at h
    split at h
    · exact Except.noConfusion h
    · split at h
      · exact Except.noConfusion h
      · cases h
        exact rfl

/-- Witness for C3 at concrete inputs: in the environment `envB` the batch
`[rowB]` has a readable dimension, and the selected pair is one of the
batch's readable pairs. -/
theorem C3_witness :
    readDims envB [rowB] ≠ [] ∧ targetDimensions envB [rowB] ∈ readDims envB [rowB] :=
  ⟨by decide, (C3_dimension_selection.2.1 envB [rowB] (by decide)).1⟩

theorem isEmpty_false_of_ne {α : Type} {l : List α} (h : l ≠ []) :
    l.isEmpty = false := by
  cases l with
  | nil => exact absurd rfl h
  | cons a l => rfl

theorem ne_nil_of_exists_mem {l : List String} {env : Env}
    (h : ∃ i ∈ l, (env.db i).isSome) : l ≠ [] := by
  obtain ⟨i, hm, -⟩ := h
  intro hz
  rw [hz] at hm
  exact absurd hm (List.not_mem_nil i)

theorem resolved_ne_nil {l : List String} {env : Env}
    (h : ∃ i ∈ l, (env.db i).isSome) : l.filterMap env.db ≠ [] := by
  intro hz
  obtain ⟨i, hm, hs⟩ := h
  rw [List.filterMap_eq_nil_iff.mp hz i hm] at hs
  exact Bool.noConfusion hs

theorem assemble_ok (env : Env) (ids : List String) (po : Bool)
    (h1 : ids.isEmpty = false) (h2 : (ids.filterMap env.db).isEmpty = false) :
    assemble env ids po =
      .ok ⟨(targetDimensions env (ids.filterMap env.db)).1,
           (targetDimensions env (ids.filterMap env.db)).2,
           (copyLoop env ⟨[], 0⟩ (orderSlides po (ids.filterMap env.db))).2,
           (copyLoop env ⟨[], 0⟩ (orderSlides po (ids.filterMap env.db))).1.pkgParts⟩ := by
  simp only [assemble, h1, h2, Bool.false_eq_true, if_false]

theorem pdfAssemble_ok (env : Env) (ids : List String) (po : Bool)
    (h1 : ids.isEmpty = false) (h2 : (ids.filterMap env.db).isEmpty = false) :
    pdfAssemble env ids po =
      .ok ⟨(pdfLoop env (orderSlides po (ids.filterMap env.db))).1,
           (pdfLoop env (orderSlides po (ids.filterMap env.db))).2⟩ := by
  simp only [pdfAssemble, h1, h2, Bool.false_eq_true, if_false]

theorem copyLoop_length (env : Env) :
    ∀ (rows : List SlideRow) (st : AsmState),
      (copyLoop env st rows).2.length =
        (rows.filter (fun sd => (loadSource env sd).isSome)).length := by
  intro rows
  induction rows with
  | nil => intro st; rfl
  | cons sd rest ih =>
    intro st
    cases hl : loadSource env sd with
    | none => simp [copyLoop, hl, ih, List.filter_cons]
    | some src => simp [copyLoop, hl, ih, List.filter_cons]

theorem copyLoop_eq_copySlides (env : Env) :
    ∀ (rows : List SlideRow) (st : AsmState),
      copyLoop env st rows = copySlides st (loadedSources env rows) := by
  intro rows
  induction rows with
  | nil => intro st; rfl
  | cons sd rest ih =>
    intro st
    cases hl : loadSource env sd with
    | none =>
      simp only [copyLoop, hl, loadedSources, List.filterMap_cons]
      exact ih st
    | some src =>
      simp only [copyLoop, hl, loadedSources, List.filterMap_cons, copySlides]
      rw [ih (copySlide st src).1]
      rfl

theorem copyLoop_none (env : Env) :
    ∀ (rows : List SlideRow) (st : AsmState),
      (∀ sd ∈ rows, loadSource env sd = none) → copyLoop env st rows = (st, []) := by
  intro rows
  induction rows with
  | nil => intro st _; rfl
  | cons sd rest ih =>
    intro st h
    have hsd := h sd (List.mem_cons_self _ _)
    simp only [copyLoop, hsd]
    exact ih st (fun sd' hm => h sd' (List.mem_cons_of_mem _ hm))

theorem pdfLoop_pages (env : Env) :
    ∀ rows : List SlideRow, (pdfLoop env rows).1 = rows.filterMap (pdfPage env) := by
  intro rows
  induction rows with
  | nil => rfl
  | cons sd rest ih =>
    cases hp : sd.slide_pdf_path with
    | none => simp [pdfLoop, pdfPage, hp, ih]
    | some p =>
      by_cases hc : (p == "" || !env.pathExists p) = true
      · simp [pdfLoop, pdfPage, hp, hc, ih]
      · cases ho : env.openPdf p with
        | none => simp [pdfLoop, pdfPage, hp, hc, ho, ih]
        | some n =>
          cases n with
          | zero => simp [pdfLoop, pdfPage, hp, hc, ho, ih]
          | succ m => simp [pdfLoop, pdfPage, hp, hc, ho, ih]

theorem pdfLoop_warn (env : Env) :
    ∀ (rows : List SlideRow) (sd : SlideRow), sd ∈ rows → missingPdf env sd = true →
      PdfNote.warnMissing sd.slide_id ∈ (pdfLoop env rows).2 := by
  intro rows
  induction rows with
  | nil => intro sd hm; exact absurd hm (List.not_mem_nil sd)
  | cons sd' rest ih =>
    intro sd hm hmiss
    have hsub : (pdfLoop env rest).2 ⊆ (pdfLoop env (sd' :: rest)).2 := by
      intro x hx
      cases hp : sd'.slide_pdf_path with
      | none => simp [pdfLoop, hp, hx]
      | some p =>
        by_cases hc : (p == "" || !env.pathExists p) = true
        · simp [pdfLoop, hp, hc, hx]
        · cases ho : env.openPdf p with
          | none => simp [pdfLoop, hp, hc, ho, hx]
          | some n =>
            cases n with
            | zero => simpa [pdfLoop, hp, hc, ho] using hx
            | succ m => simpa [pdfLoop, hp, hc, ho] using hx
    rcases List.mem_cons.mp hm with rfl | hm'
    · cases hp : sd.slide_pdf_path with
      | none => simp [pdfLoop, hp]
      | some p =>
        have hc : (p == "" || !env.pathExists p) = true := by
          have := hmiss
          simp only [missingPdf, hp] at this
          exact this
        simp [pdfLoop, hp, hc]
    · exact hsub (ih sd hm' hmiss)

/-- C4: whenever at least one reference resolves in the metadata store, the
PPTX `assemble` returns an output (no per-slide failure aborts it), and the
output has exactly one slide per ordered row whose source resolution
succeeds — every row whose source cannot be loaded is skipped and the rest
are still processed. -/
theorem C4_per_slide_failure_skipped :
    ∀ (env : Env) (ids : List String) (po : Bool),
      (∃ i ∈ ids, (env.db i).isSome) →
      ∃ out, assemble env ids po = .ok out ∧
        out.slides.length =
          ((orderSlides po (ids.filterMap env.db)).filter
            (fun sd => (loadSource env sd).isSome)).length := by
  intro env ids po h
  refine ⟨_, assemble_ok env ids po (isEmpty_false_of_ne (ne_nil_of_exists_mem h))
    (isEmpty_false_of_ne (resolved_ne_nil h)), ?_⟩
  exact copyLoop_length env _ _

/-- Witness for C4 at concrete inputs: in `envB` the list `["s2"]` has a
resolving reference, assembly succeeds, and the slide count matches the
loadable rows. -/
theorem C4_witness :
    (∃ i ∈ ["s2"], (envB.db i).isSome) ∧
    ∃ out, assemble envB ["s2"] false = .ok out ∧
      out.slides.length =
        ((orderSlides false (["s2"].filterMap envB.db)).filter
          (fun sd => (loadSource envB sd).isSome)).length :=
  ⟨⟨"s2", by decide, by decide⟩,
    C4_per_slide_failure_skipped envB ["s2"] false ⟨"s2", by decide, by decide⟩⟩

/-- C6: under `preserve_order` the rows are kept in the given order, and
otherwise they are stably sorted by the key `(deck_path, slide_index)` (a
permutation of the rows that is sorted under the key); the PPTX composer
emits exactly the copied slides of the ordered loadable rows and the PDF
composer emits exactly the pages of the ordered rows — both through the
same `orderSlides` rule applied to the same resolved rows. -/
theorem C6_ordering_rule :
    (∀ rows, orderSlides true rows = rows) ∧
    (∀ rows, (orderSlides false rows).Perm rows ∧
      List.Sorted rowLeProp (orderSlides false rows)) ∧
    (∀ env ids po out, assemble env ids po = .ok out →
      out.slides =
        (copySlides ⟨[], 0⟩ (loadedSources env (orderSlides po (ids.filterMap env.db)))).2) ∧
    (∀ env ids po pout, pdfAssemble env ids po = .ok pout →
      pout.pages = (orderSlides po (ids.filterMap env.db)).filterMap (pdfPage env)) := by
  refine ⟨?_, ?_, ?_, ?_⟩
  · intro rows
    rfl
  · intro rows
    exact ⟨List.perm_insertionSort rowLeProp rows,
      List.sorted_insertionSort rowLeProp rows⟩
  · intro env ids po out h
    simp only [assemble] at h
    split at h
    · exact Except.noConfusion h
    · split at h
      · exact Except.noConfusion h
      · cases h
        show (copyLoop env ⟨[], 0⟩ (orderSlides po (ids.filterMap env.db))).2 = _
        rw [copyLoop_eq_copySlides]
  · intro env ids po pout h
    simp only [pdfAssemble] at h
    split at h
    · exact Except.noConfusion h
    · split at h
      · exact Except.noConfusion h
      · cases h
        show (pdfLoop env (orderSlides po (ids.filterMap env.db))).1 = _
        rw [pdfLoop_pages]

/-- Witness for C6 at concrete inputs: the assembled output of `envB` equals
the slide-by-slide copy of the ordered loadable rows. -/
theorem C6_witness :
    assemble envB ["s2"] false = .ok ⟨1000, 800, [⟨[], initialSlideRels⟩], []⟩ ∧
    (⟨1000, 800, [⟨[], initialSlideRels⟩], []⟩ : Output).slides =
      (copySlides ⟨[], 0⟩
        (loadedSources envB (orderSlides false (["s2"].filterMap envB.db)))).2 :=
  ⟨by decide,
    C6_ordering_rule.2.2.1 envB ["s2"] false ⟨1000, 800, [⟨[], initialSlideRels⟩], []⟩
      (by decide)⟩

/-- C7: both composers raise `NoSlidesProvided` exactly on an empty input
list, and on an empty list the result is the same in every environment —
the check fires before any metadata lookup or file access. -/
theorem C7_empty_input :
    (∀ env po, assemble env [] po = .error .NoSlidesProvided) ∧
    (∀ env po, pdfAssemble env [] po = .error .NoSlidesProvided) ∧
    (∀ env ids po, assemble env ids po = .error .NoSlidesProvided → ids = []) ∧
    (∀ env ids po, pdfAssemble env ids po = .error .NoSlidesProvided → ids = []) ∧
    (∀ env env' po, assemble env [] po = assemble env' [] po) ∧
    (∀ env env' po, pdfAssemble env [] po = pdfAssemble env' [] po) := by
  refine ⟨fun env po => rfl, fun env po => rfl, ?_, ?_, fun env env' po => rfl,
    fun env env' po => rfl⟩
  · intro env ids po h
    cases ids with
    | nil => rfl
    | cons i rest =>
      simp only [assemble, List.isEmpty_cons, Bool.false_eq_true, if_false] at h
      split at h
      · exact absurd (Except.error.inj h) (by simp)
      · exact Except.noConfusion h
  · intro env ids po h
    cases ids with
    | nil => rfl
    | cons i rest =>
      simp only [pdfAssemble, List.isEmpty_cons, Bool.false_eq_true, if_false] at h
      split at h
      · exact absurd (Except.error.inj h) (by simp)
      · exact Except.noConfusion h

/-- Witness for C7 at concrete inputs: the empty list raises
`NoSlidesProvided` in `envB`, and the theorem's converse applies to it. -/
theorem C7_witness :
    assemble envB [] true = .error .NoSlidesProvided ∧ ([] : List String) = [] :=
  ⟨by decide, C7_empty_input.2.2.1 envB [] true (by decide)⟩

/-- C8: for a non-empty input list, each composer raises `NoValidSlides`
exactly when every identifier fails to resolve; and when at least one
resolves, both composers return an output. -/
theorem C8_no_valid_slides :
    ∀ (env : Env) (ids : List String) (po : Bool), ids ≠ [] →
      ((assemble env ids po = .error .NoValidSlides ↔ ∀ i ∈ ids, env.db i = none) ∧
       (pdfAssemble env ids po = .error .NoValidSlides ↔ ∀ i ∈ ids, env.db i = none) ∧
       ((∃ i ∈ ids, (env.db i).isSome) →
         (∃ out, assemble env ids po = .ok out) ∧
         ∃ pout, pdfAssemble env ids po = .ok pout)) := by
  intro env ids po hne
  have h1 : ids.isEmpty = false := isEmpty_false_of_ne hne
  refine ⟨⟨?_, ?_⟩, ⟨?_, ?_⟩, ?_⟩
  · intro h
    simp only [assemble, h1, Bool.false_eq_true, if_false] at h
    split at h
    · next hc =>
      intro i hm
      exact List.filterMap_eq_nil_iff.mp (List.isEmpty_iff.mp hc) i hm
    · exact Except.noConfusion h
  · intro hall
    have h2 : (ids.filterMap env.db).isEmpty = true := by
      rw [List.isEmpty_iff]
      exact List.filterMap_eq_nil_iff.mpr hall
    simp only [assemble, h1, Bool.false_eq_true, if_false, h2, if_true]
  · intro h
    simp only [pdfAssemble, h1, Bool.false_eq_true, if_false] at h
    split at h
    · next hc =>
      intro i hm
      exact List.filterMap_eq_nil_iff.mp (List.isEmpty_iff.mp hc) i hm
    · exact Except.noConfusion h
  · intro hall
    have h2 : (ids.filterMap env.db).isEmpty = true := by
      rw [List.isEmpty_iff]
      exact List.filterMap_eq_nil_iff.mpr hall
    simp only [pdfAssemble, h1, Bool.false_eq_true, if_false, h2, if_true]
  · intro h
    have h2 : (ids.filterMap env.db).isEmpty = false :=
      isEmpty_false_of_ne (resolved_ne_nil h)
    exact ⟨⟨_, assemble_ok env ids po h1 h2⟩, ⟨_, pdfAssemble_ok env ids po h1 h2⟩⟩

/-- Witness for C8 at concrete inputs: for the non-empty list `["s1"]` in an
environment that does not know `"s1"`, the PPTX composer raises
`NoValidSlides`. -/
theorem C8_witness :
    assemble envB ["s1"] true = .error .NoValidSlides :=
  (C8_no_valid_slides envB ["s1"] true (by decide)).1.mpr (by decide)

/-- C9 fails as stated: in `envP` the slide `"s1"` has a recorded artifact
path that exists on disk, yet the merged output has zero pages, not one —
the open of the artifact fails, which the claim's "recorded and exists on
disk" condition does not exclude; the failure is logged as an error, not a
warning, and the merge still completes. -/
theorem C9_counterexample_existing_page_skipped :
    pdfAssemble envP ["s1"] true = .ok ⟨[], [PdfNote.errAdding "s1"]⟩ ∧
    envP.db "s1" = some rowP ∧
    rowP.slide_pdf_path = some "pdf/s1.pdf" ∧
    envP.pathExists "pdf/s1.pdf" = true := by
  refine ⟨by decide, by decide, by decide, by decide⟩

/-- C9 amended: the output document has exactly one page per ordered
reference whose artifact path is recorded, non-empty, exists on disk, opens
successfully and has at least one page, in the resolved order; a reference
whose path is absent, empty, or missing on disk contributes no page and
draws a logged warning; and no per-slide condition aborts the merge — the
composer still returns an output whenever some reference resolves. -/
theorem C9_pdf_pages_amended :
    ∀ (env : Env) (ids : List String) (po : Bool),
      (∃ i ∈ ids, (env.db i).isSome) →
      ∃ pout, pdfAssemble env ids po = .ok pout ∧
        pout.pages = (orderSlides po (ids.filterMap env.db)).filterMap (pdfPage env) ∧
        ∀ sd ∈ orderSlides po (ids.filterMap env.db), missingPdf env sd = true →
          PdfNote.warnMissing sd.slide_id ∈ pout.notes := by
  intro env ids po h
  refine ⟨_, pdfAssemble_ok env ids po (isEmpty_false_of_ne (ne_nil_of_exists_mem h))
    (isEmpty_false_of_ne (resolved_ne_nil h)), ?_, ?_⟩
  · exact pdfLoop_pages env _
  · intro sd hm hmiss
    exact pdfLoop_warn env _ sd hm hmiss

/-- Witness for C9's amended claim at concrete inputs: in `envB` the slide
`"s2"` resolves, its one-page artifact exists, and the output carries
exactly that page. -/
theorem C9_witness :
    (∃ i ∈ ["s2"], (envB.db i).isSome) ∧
    ∃ pout, pdfAssemble envB ["s2"] false = .ok pout ∧
      pout.pages = (orderSlides false (["s2"].filterMap envB.db)).filterMap (pdfPage envB) ∧
      ∀ sd ∈ orderSlides false (["s2"].filterMap envB.db), missingPdf envB sd = true →
        PdfNote.warnMissing sd.slide_id ∈ pout.notes :=
  ⟨⟨"s2", by decide, by decide⟩,
    C9_pdf_pages_amended envB ["s2"] false ⟨"s2", by decide, by decide⟩⟩

/-- C10: when every identifier resolves but no source package can be opened
at any path, the PPTX composer neither raises `NoValidSlides` nor any other
error: it returns an output at the widescreen default canvas containing
zero slides and zero added parts. -/
theorem C10_all_sources_unopenable :
    ∀ (env : Env) (ids : List String) (po : Bool), ids ≠ [] →
      (∀ i ∈ ids, (env.db i).isSome) → (∀ p, env.openPres p = none) →
      assemble env ids po = .ok ⟨9144000, 5143500, [], []⟩ := by
  intro env ids po hne hall hopen
  have hex : ∃ i ∈ ids, (env.db i).isSome := by
    cases ids with
    | nil => exact absurd rfl hne
    | cons i rest => exact ⟨i, List.mem_cons_self _ _, hall i (List.mem_cons_self _ _)⟩
  have h2 : (ids.filterMap env.db).isEmpty = false :=
    isEmpty_false_of_ne (resolved_ne_nil hex)
  rw [assemble_ok env ids po (isEmpty_false_of_ne hne) h2]
  have hreads : readDims env (ids.filterMap env.db) = [] := by
    apply List.filterMap_eq_nil_iff.mpr
    intro sd _
    simp [readDim, hopen]
  have hdims : targetDimensions env (ids.filterMap env.db) = widescreenDefault := by
    unfold targetDimensions
    rw [dimTally_eq, hreads]
    rfl
  have hloads : ∀ sd ∈ orderSlides po (ids.filterMap env.db), loadSource env sd = none := by
    intro sd _
    unfold loadSource
    by_cases hu : useStandalone env sd = true
    · simp [hu, hopen]
    · simp [hu, hopen]
  rw [copyLoop_none env _ _ hloads, hdims]
  rfl

/-- Witness for C10 at concrete inputs: in `envU` every identifier of
`["s2"]` resolves but nothing opens, and assembly returns the empty
widescreen output. -/
theorem C10_witness :
    assemble envU ["s2"] false = .ok ⟨9144000, 5143500, [], []⟩ :=
  C10_all_sources_unopenable envU ["s2"] false (by decide) (by decide) (fun p => rfl)

end Slidex
